/-
Verification development for the Bachlor2025-Padel repository.

The repository ships the analysis documents, the backend architecture
documentation and a React frontend; the tracking-and-event-inference
pipeline itself (Court Model, Track Store, Ball Motion Filter, Event
Engine, Detection Adapter) is described by the specification but its code
is not present under src/.  Those components are therefore modelled here
from the specification's words, as marked on each definition.  The
frontend definitions at the end are translated directly from the
TypeScript sources (LoginPage.tsx, UploadPage.tsx, App routing).

All arithmetic is exact rational arithmetic (ℚ); the floating-point
arithmetic of a real implementation is abstracted to exact arithmetic, so
"within tolerance" statements are established as exact equalities.
-/
import Mathlib

set_option linter.unusedVariables false
set_option linter.unreachableTactic false
set_option linter.unusedTactic false

namespace PadelSpec

/-! ## Court Model (spec §4.2)

Modelled from the spec: the Court Model code is not under src/ (only the
calibration analysis documents are).  A `CourtModel` holds the planar
homography mapping pixel coordinates to court coordinates; the spec's
invariant is that the homography must be invertible (non-degenerate
corner configuration) or construction fails with `CalibrationError`. -/

/-- A point in the plane, with exact rational coordinates. -/
def Pt : Type := ℚ × ℚ

instance : DecidableEq Pt := inferInstanceAs (DecidableEq (ℚ × ℚ))

/-- A vector in homogeneous coordinates. -/
structure Vec3 where
  x : ℚ
  y : ℚ
  z : ℚ
deriving DecidableEq

/-- A 3×3 matrix, written row by row. -/
structure Mat3 where
  a : ℚ
  b : ℚ
  c : ℚ
  d : ℚ
  e : ℚ
  f : ℚ
  g : ℚ
  h : ℚ
  i : ℚ
deriving DecidableEq

/-- Determinant of a 3×3 matrix. -/
def det3 (m : Mat3) : ℚ :=
  m.a * (m.e * m.i - m.f * m.h)
    - m.b * (m.d * m.i - m.f * m.g)
    + m.c * (m.d * m.h - m.e * m.g)

/-- Adjugate (classical adjoint) of a 3×3 matrix: `adj3 m * m = det3 m • 1`.
Used as the projective inverse: the scalar factor `det3 m` cancels in the
perspective divide. -/
def adj3 (m : Mat3) : Mat3 where
  a := m.e * m.i - m.f * m.h
  b := m.c * m.h - m.b * m.i
  c := m.b * m.f - m.c * m.e
  d := m.f * m.g - m.d * m.i
  e := m.a * m.i - m.c * m.g
  f := m.c * m.d - m.a * m.f
  g := m.d * m.h - m.e * m.g
  h := m.b * m.g - m.a * m.h
  i := m.a * m.e - m.b * m.d

/-- Matrix applied to a homogeneous vector. -/
def applyM (m : Mat3) (v : Vec3) : Vec3 where
  x := m.a * v.x + m.b * v.y + m.c * v.z
  y := m.d * v.x + m.e * v.y + m.f * v.z
  z := m.g * v.x + m.h * v.y + m.i * v.z

/-- Perspective divide: a homogeneous vector to an affine point, defined
only when the last coordinate is nonzero. -/
def projV (v : Vec3) : Option Pt :=
  if v.z = 0 then none else some (v.x / v.z, v.y / v.z)

/-- Modelled from the spec: the Court Model record.  Its homography field
maps pixel coordinates to court coordinates; the spec's data-model
invariant requires it to be invertible (`det3 H ≠ 0`) for a valid
calibration. -/
structure CourtModel where
  homography : Mat3
deriving DecidableEq

/-- Modelled from the spec: `project(pixel) -> court_position`, applying
the homography with a perspective divide. -/
def project (cm : CourtModel) (p : Pt) : Option Pt :=
  projV (applyM cm.homography ⟨p.1, p.2, 1⟩)

/-- Modelled from the spec: `unproject(court_position) -> pixel`, applying
the inverse homography.  The adjugate is used: projectively it equals the
inverse, the determinant factor cancelling in the perspective divide. -/
def unproject (cm : CourtModel) (q : Pt) : Option Pt :=
  projV (applyM (adj3 cm.homography) ⟨q.1, q.2, 1⟩)

/-! ## Track Store & Associator (spec §4.3)

Modelled from the spec: the Track Store code is not under src/ (only the
ByteTrack analysis documents are).  The geometric association step (IoU
cost matrix and bipartite matching) is abstracted into the per-frame
input: for each live track the stream reports whether a detection of its
class was matched to it, and which detection classes were left unmatched
(candidate spawns).  Lost tracks are propagated by motion prediction only
and are not matched; re-acquisition happens through a fresh track, which
per the spec is accepted only while every existing track of that class is
`Lost` (or already `Removed`). -/

/-- The object classes maintained by the tracker: the four fixed player
identities and the ball. -/
inductive ObjClass where
  | player1
  | player2
  | player3
  | player4
  | ball
deriving DecidableEq

/-- Lifecycle status of a track (spec §4.3 state machine). -/
inductive TrackStatus where
  | tentative
  | confirmed
  | lost
  | removed
deriving DecidableEq

/-- Modelled from the spec: a track with its lifecycle bookkeeping.  The
continuous motion state (position, velocity, covariance) plays no part in
the lifecycle claims and is omitted. -/
structure Track where
  tid : Nat
  cls : ObjClass
  status : TrackStatus
  consecutiveMatches : Nat
  timeSinceUpdate : Nat
deriving DecidableEq

/-- Modelled from the spec: one frame's association outcome — ids of the
tracks a detection was matched to, and the classes of the unmatched
detections (candidates for spawning new tracks). -/
structure FrameInput where
  matchedIds : List Nat
  newDetections : List ObjClass
deriving DecidableEq

/-- Modelled from the spec: per-frame lifecycle step of a single track.
Matched tracks reset `time_since_update` and extend the consecutive-match
run, confirming at three consecutive matches; unmatched tracks increment
`time_since_update`, a `Confirmed` track transitioning to `Lost` as soon
as it exceeds 0 and a `Lost` track to `Removed` once it exceeds
`maxAge`. -/
def stepTrack (maxAge : Nat) (matched : Bool) (t : Track) : Track :=
  match t.status with
  | .removed => t
  | .lost =>
      let tsu := t.timeSinceUpdate + 1
      { t with
        consecutiveMatches := 0
        timeSinceUpdate := tsu
        status := if maxAge < tsu then .removed else .lost }
  | .tentative =>
      if matched then
        let cm := t.consecutiveMatches + 1
        { t with
          consecutiveMatches := cm
          timeSinceUpdate := 0
          status := if 3 ≤ cm then .confirmed else .tentative }
      else
        { t with
          consecutiveMatches := 0
          timeSinceUpdate := t.timeSinceUpdate + 1 }
  | .confirmed =>
      if matched then
        { t with
          consecutiveMatches := t.consecutiveMatches + 1
          timeSinceUpdate := 0 }
      else
        { t with
          consecutiveMatches := 0
          timeSinceUpdate := t.timeSinceUpdate + 1
          status := .lost }

/-- Modelled from the spec: a new track for class `c` is accepted only
while every existing track of that class is `Lost` or already `Removed`
— in particular a class with a live `Confirmed` track never accepts a
spawn, the extra detection being discarded as noise. -/
def spawnAllowed (ts : List Track) (c : ObjClass) : Bool :=
  ts.all fun t => t.cls ≠ c || t.status = .lost || t.status = .removed

/-- Modelled from the spec: spawn `Tentative` tracks for the unmatched
detections, left to right, re-checking the acceptance guard after each
spawn (so two unmatched detections of one class yield one track). -/
def spawnTracks : List Track → Nat → List ObjClass → List Track × Nat
  | ts, n, [] => (ts, n)
  | ts, n, c :: cs =>
      if spawnAllowed ts c then
        spawnTracks (ts ++ [⟨n, c, .tentative, 1, 0⟩]) (n + 1) cs
      else
        spawnTracks ts n cs

/-- Modelled from the spec: the Track Store — the live track list and the
next fresh track id. -/
structure TrackStore where
  tracks : List Track
  nextId : Nat
deriving DecidableEq

/-- Modelled from the spec: one frame of the Track Store — step every
track by its match outcome, then spawn tracks for unmatched detections. -/
def stepStore (maxAge : Nat) (s : TrackStore) (inp : FrameInput) : TrackStore :=
  let upd := s.tracks.map fun t => stepTrack maxAge (inp.matchedIds.contains t.tid) t
  let sp := spawnTracks upd s.nextId inp.newDetections
  ⟨sp.1, sp.2⟩

/-- Modelled from the spec: run the Track Store over a detection stream,
starting from the empty store. -/
def runStore (maxAge : Nat) (inputs : List FrameInput) : TrackStore :=
  inputs.foldl (stepStore maxAge) ⟨[], 0⟩

/-- A track is active when it is being tracked concurrently — neither
`Lost` (coasting on prediction only) nor `Removed`. -/
def isActive (t : Track) : Bool :=
  t.status = .tentative || t.status = .confirmed

/-- Number of active tracks of a given class. -/
def countActive (ts : List Track) (c : ObjClass) : Nat :=
  (ts.filter fun t => t.cls = c && isActive t).length

/-- The lifecycle bookkeeping invariant of a single track: `Tentative`
with 0–2 consecutive matches, `Confirmed` with at least 3. -/
def trackOK (t : Track) : Prop :=
  (t.status = .tentative → t.consecutiveMatches ≤ 2) ∧
  (t.status = .confirmed → 3 ≤ t.consecutiveMatches)

/-! ## Ball Motion Filter (spec §4.4)

Modelled from the spec: the Kalman-filter ball tracker code is not under
src/ (only the analysis documents naming "YOLO + Kalman filter" are).
The state is `(x, y, vx, vy)` with constant-velocity prediction; the
Mahalanobis distance is taken with an isotropic innovation covariance
`measVar`, and gating also bounds the detection's implied per-frame
speed.  All thresholds are squared to stay in exact rational
arithmetic. -/

/-- Squared Euclidean distance between two points. -/
def distSq (p q : Pt) : ℚ :=
  (p.1 - q.1) ^ 2 + (p.2 - q.2) ^ 2

/-- Modelled from the spec: the ball filter's exposed noise and gating
configuration constants. -/
structure BallConfig where
  measVar : ℚ
  gateSq : ℚ
  maxSpeedSq : ℚ
deriving DecidableEq

/-- Modelled from the spec: the ball filter state `(x, y, vx, vy)`. -/
structure BallState where
  x : ℚ
  y : ℚ
  vx : ℚ
  vy : ℚ
deriving DecidableEq

/-- Constant-velocity prediction of the ball state over one frame. -/
def predictBall (s : BallState) : BallState :=
  ⟨s.x + s.vx, s.y + s.vy, s.vx, s.vy⟩

/-- Squared Mahalanobis distance of a detection to a predicted state,
with isotropic innovation covariance `measVar`. -/
def mahalSq (cfg : BallConfig) (pred : BallState) (d : Pt) : ℚ :=
  distSq (pred.x, pred.y) d / cfg.measVar

/-- Squared speed the detection would imply, as per-frame displacement
from the current filtered position. -/
def impliedSpeedSq (s : BallState) (d : Pt) : ℚ :=
  distSq (s.x, s.y) d

/-- Modelled from the spec: the gate — a candidate detection is accepted
only if its Mahalanobis distance to the predicted state is below the
threshold AND its implied speed does not exceed the configured
maximum. -/
def passesGate (cfg : BallConfig) (s : BallState) (d : Pt) : Bool :=
  mahalSq cfg (predictBall s) d ≤ cfg.gateSq
    && impliedSpeedSq s d ≤ cfg.maxSpeedSq

/-- Modelled from the spec: among the candidates, keep the one of minimum
Mahalanobis distance to the prediction. -/
def pickBest (cfg : BallConfig) (pred : BallState) (ds : List Pt) : Option Pt :=
  ds.foldl
    (fun acc d =>
      match acc with
      | none => some d
      | some b => if mahalSq cfg pred d < mahalSq cfg pred b then some d else some b)
    none

/-- Modelled from the spec: one frame of the ball filter — predict, gate
the frame's candidate detections, update from the closest passing
candidate, or coast (predict without update) when none passes. -/
def ballStep (cfg : BallConfig) (s : BallState) (ds : List Pt) : BallState :=
  let pred := predictBall s
  match pickBest cfg pred (ds.filter (passesGate cfg s)) with
  | none => pred
  | some d => ⟨d.1, d.2, d.1 - s.x, d.2 - s.y⟩

/-! ## Touch attribution and Event Engine (spec §4.5)

Modelled from the spec: the rule-based Event Engine code is not under
src/ (only the analysis documents naming rally segmentation, touch and
fault estimation are). -/

/-- A player's id and court position at one frame. -/
structure PlayerPos where
  pid : Nat
  pos : Pt
deriving DecidableEq

/-- A player is a touch candidate when within the proximity radius of the
ball (squared radius, exact arithmetic). -/
def withinRadius (radiusSq : ℚ) (ball : Pt) (p : PlayerPos) : Bool :=
  distSq ball p.pos ≤ radiusSq

/-- Modelled from the spec: the deterministic preference between two
touch candidates — the strictly nearer player (beyond `eps`) wins, exact
equidistance within `eps` going to the lower player id. -/
def preferOver (eps : ℚ) (ball : Pt) (p q : PlayerPos) : Bool :=
  if eps < distSq ball q.pos - distSq ball p.pos then true
  else if eps < distSq ball p.pos - distSq ball q.pos then false
  else p.pid < q.pid

/-- Modelled from the spec: attribute a touch among the players inside
the proximity radius, by the nearer-player rule with the lower-id
tie-break. -/
def attributeTouch (radiusSq eps : ℚ) (ball : Pt) (players : List PlayerPos) :
    Option Nat :=
  ((players.filter (withinRadius radiusSq ball)).foldl
    (fun acc p =>
      match acc with
      | none => some p
      | some q => if preferOver eps ball p q then some p else some q)
    none).map PlayerPos.pid

/-- Modelled from the spec: the Event Engine's thresholds — squared
court-space motion threshold, activation/deactivation run lengths, the
touch cooldown window, and the touch proximity parameters. -/
structure EventConfig where
  motionThresholdSq : ℚ
  activateFrames : Nat
  deactivateFrames : Nat
  cooldown : Nat
  radiusSq : ℚ
  eps : ℚ
deriving DecidableEq

/-- One frame of the track history as the Event Engine consumes it: the
ball's court position and the players' court positions. -/
structure FrameTracks where
  ball : Pt
  players : List PlayerPos
deriving DecidableEq

/-- A rally record: the frame interval of one `Active` period. -/
structure Rally where
  startFrame : Nat
  endFrame : Nat
deriving DecidableEq

/-- A touch event: frame and attributed player. -/
structure TouchEvent where
  frame : Nat
  pid : Nat
deriving DecidableEq

/-- The Event Engine's running state. -/
structure EngineState where
  frame : Nat
  active : Bool
  runStart : Nat
  aboveCount : Nat
  belowCount : Nat
  lastTouch : Option Nat
  rallies : List Rally
  touches : List TouchEvent
  prevBall : Option Pt
deriving DecidableEq

/-- The engine's initial state. -/
def engineInit : EngineState :=
  ⟨0, false, 0, 0, 0, none, [], [], none⟩

/-- Whether a touch may be emitted at frame `i` given the last touch
frame: at most one touch per cooldown window. -/
def cooldownOver (cooldown : Nat) (lastTouch : Option Nat) (i : Nat) : Bool :=
  match lastTouch with
  | none => true
  | some f => f + cooldown ≤ i

/-- Modelled from the spec: one frame of the Event Engine — update the
rally state machine on the ball's court-space speed (N consecutive
above-threshold frames activate, M consecutive below-threshold frames
deactivate and close a `Rally`), and within an active rally emit at most
one touch per cooldown window via the attribution rule. -/
def engineStep (cfg : EventConfig) (st : EngineState) (ft : FrameTracks) :
    EngineState :=
  let i := st.frame
  let speedSq : ℚ :=
    match st.prevBall with
    | none => 0
    | some pb => distSq ft.ball pb
  let above : Bool := cfg.motionThresholdSq < speedSq
  if st.active then
    let st1 :=
      if cooldownOver cfg.cooldown st.lastTouch i then
        match attributeTouch cfg.radiusSq cfg.eps ft.ball ft.players with
        | some pid =>
            { st with
              touches := st.touches ++ [⟨i, pid⟩]
              lastTouch := some i }
        | none => st
      else st
    let bc := if above then 0 else st.belowCount + 1
    if cfg.deactivateFrames ≤ bc then
      { st1 with
        frame := i + 1
        active := false
        aboveCount := 0
        belowCount := 0
        rallies := st1.rallies ++ [⟨st1.runStart, i⟩]
        prevBall := some ft.ball }
    else
      { st1 with
        frame := i + 1
        belowCount := bc
        aboveCount := 0
        prevBall := some ft.ball }
  else
    let ac := if above then st.aboveCount + 1 else 0
    if cfg.activateFrames ≤ ac ∧ 0 < ac then
      { st with
        frame := i + 1
        active := true
        runStart := i + 1 - ac
        aboveCount := 0
        belowCount := 0
        prevBall := some ft.ball }
    else
      { st with
        frame := i + 1
        aboveCount := ac
        prevBall := some ft.ball }

/-- Modelled from the spec: run the Event Engine over a full track
history, closing a still-open rally at stream end, and return the rally
records and touch events. -/
def runEventEngine (cfg : EventConfig) (hist : List FrameTracks) :
    List Rally × List TouchEvent :=
  let fin := hist.foldl (engineStep cfg) engineInit
  if fin.active then
    (fin.rallies ++ [⟨fin.runStart, fin.frame - 1⟩], fin.touches)
  else
    (fin.rallies, fin.touches)

/-! ## Detection Adapter (spec §4.1)

Modelled from the spec: the Detection Adapter code is not under src/
(only the annotation documents are).  The six known classes and the raw
class-id mapping 0–3 → players, 4 → racket, 5 → ball come from the
repository's annotation documents. -/

/-- The six known detection classes. -/
inductive DetClass where
  | player1
  | player2
  | player3
  | player4
  | racket
  | ball
deriving DecidableEq

/-- The raw detector class-id mapping: 0–3 the players, 4 the racket,
5 the ball; anything else is unknown. -/
def classOfId (n : Nat) : Option DetClass :=
  match n with
  | 0 => some .player1
  | 1 => some .player2
  | 2 => some .player3
  | 3 => some .player4
  | 4 => some .racket
  | 5 => some .ball
  | _ => none

/-- A raw detection as the detector reports it: numeric class id,
bounding box `(x, y, w, h)` in pixels, confidence. -/
structure RawDet where
  classId : Nat
  x : ℚ
  y : ℚ
  w : ℚ
  h : ℚ
  conf : ℚ
deriving DecidableEq

/-- The core's `Detection` value: a known class, a clipped bounding box
and a confidence. -/
structure Detection where
  cls : DetClass
  x : ℚ
  y : ℚ
  w : ℚ
  h : ℚ
  conf : ℚ
deriving DecidableEq

/-- Clamp a value into `[lo, hi]`. -/
def clampQ (lo hi v : ℚ) : ℚ :=
  max lo (min hi v)

/-- Modelled from the spec: the confidence filter — the confidence lies
in `[0, 1]` and reaches the configurable floor (default 0.25). -/
def confOk (confFloor conf : ℚ) : Bool :=
  0 ≤ conf && conf ≤ 1 && confFloor ≤ conf

/-- Modelled from the spec: clip a bounding box to the `[0, W] × [0, H]`
frame bounds — corner clamped into the frame, extent clamped to what
remains. -/
def clipBox (fw fh x y w h : ℚ) : ℚ × ℚ × ℚ × ℚ :=
  let cx := clampQ 0 fw x
  let cy := clampQ 0 fh y
  (cx, cy, clampQ 0 (fw - cx) w, clampQ 0 (fh - cy) h)

/-- Modelled from the spec: the Detection Adapter for one frame — keep
only raw detections with a known class id and a confidence inside
`[0, 1]` at or above the configured floor, and clip each bounding box to
the frame bounds.  A pure function of the one frame's raw output. -/
def adaptFrame (confFloor fw fh : ℚ) (raws : List RawDet) : List Detection :=
  raws.filterMap fun r =>
    match classOfId r.classId with
    | none => none
    | some c =>
        if confOk confFloor r.conf then
          let bb := clipBox fw fh r.x r.y r.w r.h
          some ⟨c, bb.1, bb.2.1, bb.2.2.1, bb.2.2.2, r.conf⟩
        else
          none

/-! ## Court Model construction and pipeline errors (spec §4.2, §7)

Modelled from the spec: the calibration code is not under src/ (only the
manual-homography analysis documents are).  The "condition number above a
threshold" test is realised as a minimum corner-triangle area test: a
corner configuration is degenerate when some three of the four corners
span a (doubled, absolute) triangle area at or below the threshold —
collinear triples give area zero, and a small area is exactly a large
condition number of the correspondence system. -/

/-- Twice the signed area of the triangle `a b c` (the cross product of
the edge vectors); zero exactly when the three points are collinear. -/
def cross2 (a b c : Pt) : ℚ :=
  (b.1 - a.1) * (c.2 - a.2) - (b.2 - a.2) * (c.1 - a.1)

/-- Modelled from the spec: the degeneracy test on the four corners —
some triple of corners is collinear or nearly so (its doubled absolute
triangle area at or below `thr`). -/
def degenerateCorners (thr : ℚ) (p0 p1 p2 p3 : Pt) : Bool :=
  |cross2 p0 p1 p2| ≤ thr || |cross2 p0 p1 p3| ≤ thr
    || |cross2 p0 p2 p3| ≤ thr || |cross2 p1 p2 p3| ≤ thr

/-- The pipeline's fatal error taxonomy (spec §7): degenerate or missing
court corners, or a non-monotonic frame index. -/
inductive AnalysisError where
  | calibrationError
  | outOfOrderFrameError
deriving DecidableEq

/-- Modelled from the spec: the direct homography construction — the map
taking the unit square to the four pixel corners (the standard
four-correspondence closed form), precomposed with the scaling by the
court dimensions; the pixel→court homography of the `CourtModel` is its
adjugate (projective inverse). -/
def homographyFromCorners (courtW courtL : ℚ) (p0 p1 p2 p3 : Pt) : Mat3 :=
  let sx := p0.1 - p1.1 + p2.1 - p3.1
  let sy := p0.2 - p1.2 + p2.2 - p3.2
  let dx1 := p1.1 - p2.1
  let dx2 := p3.1 - p2.1
  let dy1 := p1.2 - p2.2
  let dy2 := p3.2 - p2.2
  let den := dx1 * dy2 - dy1 * dx2
  let g := (sx * dy2 - sy * dx2) / den
  let h := (dx1 * sy - dy1 * sx) / den
  let m : Mat3 :=
    ⟨p1.1 - p0.1 + g * p1.1, p3.1 - p0.1 + h * p3.1, p0.1,
     p1.2 - p0.2 + g * p1.2, p3.2 - p0.2 + h * p3.2, p0.2,
     g, h, 1⟩
  let scale : Mat3 := ⟨1 / courtW, 0, 0, 0, 1 / courtL, 0, 0, 0, 1⟩
  let cToP := ⟨m.a * scale.a, m.b * scale.e, m.c,
               m.d * scale.a, m.e * scale.e, m.f,
               m.g * scale.a, m.h * scale.e, m.i⟩
  adj3 cToP

/-- Modelled from the spec: `CourtModel` construction — fails with
`CalibrationError` exactly on a degenerate corner configuration,
otherwise yields the pixel→court homography. -/
def mkCourtModel (thr courtW courtL : ℚ) (p0 p1 p2 p3 : Pt) :
    Except AnalysisError CourtModel :=
  if degenerateCorners thr p0 p1 p2 p3 then
    .error .calibrationError
  else
    .ok ⟨homographyFromCorners courtW courtL p0 p1 p2 p3⟩

/-- Modelled from the spec: the analysis run — calibration first, and
only on success is any frame processed and any track state created. -/
def analyze (thr courtW courtL : ℚ) (p0 p1 p2 p3 : Pt) (maxAge : Nat)
    (inputs : List FrameInput) : Except AnalysisError (CourtModel × TrackStore) :=
  match mkCourtModel thr courtW courtL p0 p1 p2 p3 with
  | .error e => .error e
  | .ok cm => .ok (cm, runStore maxAge inputs)

/-! ## Frontend (translated from the TypeScript sources under src/)

`handleLogin` from LoginPage.tsx, `handleAnalyse` and the analyse-button
class from UploadPage.tsx, and the application's route table from the
`App` component. -/

/-- The login form's field values (`brugernavn`, `adgangskode`). -/
structure LoginForm where
  brugernavn : String
  adgangskode : String
deriving DecidableEq

/-- The observable effects of a form submission handler: whether the
default submit was prevented, the `loginSuccessful` flag, and the path
navigated to, if any. -/
structure LoginEffect where
  preventedDefault : Bool
  loginSuccessful : Bool
  navigatedTo : Option String
deriving DecidableEq

/-- The `handleLogin` handler from LoginPage.tsx: prevents the default submit,
unconditionally sets `loginSuccessful` to true, and (as the flag is then
true) navigates to "/upload".  The form's field values are never read. -/
def handleLogin (form : LoginForm) : LoginEffect :=
  let loginSuccessful := true
  { preventedDefault := true
    loginSuccessful := loginSuccessful
    navigatedTo := if loginSuccessful then some "/upload" else none }

/-- The application's route table from the `App` component: only "/"
(LoginPage) and "/upload" (UploadPage) are registered. -/
def appRoutes : List String :=
  ["/", "/upload"]

/-- Whether a path matches some registered route (all registered routes
are static paths). -/
def matchesRoute (path : String) : Bool :=
  appRoutes.contains path

/-- The analyse button's `className` from UploadPage.tsx: the CSS class
"hidden" while no file is selected, the visible styling classes once
`fileName` is set. -/
def analyseButtonClass (fileName : Option String) : String :=
  match fileName with
  | none => "hidden"
  | some _ =>
      "text-2xl mt-6 bg-gradient-to-r from-green-300 to-blue-500 rounded-md p-4 px-8 w-64 hover:from-green-400 hover:to-blue-600 hover:cursor-pointer transition-colors"

/-- Whether the analyse button is visible: exactly when its class is not
the CSS class "hidden". -/
def analyseButtonVisible (fileName : Option String) : Bool :=
  analyseButtonClass fileName != "hidden"

/-- The `handleAnalyse` handler from UploadPage.tsx: always navigates to
"/1234". -/
def handleAnalyse (fileName : Option String) : String :=
  "/1234"

/-! ## Theorems -/

/-- C9: the login form handler accepts every submission unconditionally —
for every input in the username and password fields (including both
empty), `handleLogin` prevents the default submit, sets `loginSuccessful`
to true, and navigates to "/upload"; there is no input for which login
fails or credentials are checked. -/
theorem handleLogin_accepts_everything (u p : String) :
    handleLogin ⟨u, p⟩ =
      { preventedDefault := true
        loginSuccessful := true
        navigatedTo := some "/upload" } :=
  rfl

/-- C10: on the upload page the analyse button is hidden while no file is
selected and visible once one is, pressing it always navigates to
"/1234", and "/1234" matches no registered route (only "/" and "/upload"
are). -/
theorem uploadPage_analyse_dead_route :
    analyseButtonVisible none = false ∧
    (∀ fn : String, analyseButtonVisible (some fn) = true) ∧
    (∀ fn : Option String, handleAnalyse fn = "/1234") ∧
    matchesRoute "/1234" = false := by
  refine ⟨rfl, fun fn => rfl, fun fn => rfl, by decide⟩

/-- C5: the Event Engine is deterministic — two runs on identical track
histories produce identical Rally records and Event sequences. -/
theorem eventEngine_deterministic (cfg : EventConfig)
    (h1 h2 : List FrameTracks) (heq : h1 = h2) :
    runEventEngine cfg h1 = runEventEngine cfg h2 :=
  congrArg (runEventEngine cfg) heq

/-- Witness for C5 at a concrete configuration and history. -/
theorem eventEngine_deterministic_witness :
    ([⟨(0, 0), []⟩] : List FrameTracks) = [⟨(0, 0), []⟩] ∧
    runEventEngine ⟨1, 2, 2, 5, 1, 0⟩ [⟨(0, 0), []⟩] =
      runEventEngine ⟨1, 2, 2, 5, 1, 0⟩ [⟨(0, 0), []⟩] :=
  ⟨rfl, eventEngine_deterministic ⟨1, 2, 2, 5, 1, 0⟩ [⟨(0, 0), []⟩] [⟨(0, 0), []⟩] rfl⟩

/-- C6: `CourtModel` construction fails with `CalibrationError` exactly
when the four corners are degenerate (collinear or nearly so), and the
failure is fatal: the whole analysis aborts before any frame is
processed, so no track state is ever created under a degenerate
calibration. -/
theorem mkCourtModel_calibration_error (thr courtW courtL : ℚ) (p0 p1 p2 p3 : Pt) :
    (mkCourtModel thr courtW courtL p0 p1 p2 p3 =
        Except.error .calibrationError ↔
      degenerateCorners thr p0 p1 p2 p3 = true) ∧
    (∀ (maxAge : Nat) (inputs : List FrameInput),
      degenerateCorners thr p0 p1 p2 p3 = true →
        analyze thr courtW courtL p0 p1 p2 p3 maxAge inputs =
          Except.error .calibrationError) := by
  constructor
  · by_cases hdeg : degenerateCorners thr p0 p1 p2 p3 = true
    · simp [mkCourtModel, hdeg]
    · simp [mkCourtModel, hdeg]
  · intro maxAge inputs hdeg
    simp [analyze, mkCourtModel, hdeg]

/-- Witness for C6: four collinear corner points fail calibration and the
analysis run creates no track state. -/
theorem mkCourtModel_calibration_error_witness :
    degenerateCorners 0 (0, 0) (1, 0) (2, 0) (3, 0) = true ∧
    analyze 0 10 20 (0, 0) (1, 0) (2, 0) (3, 0) 30 [⟨[], [.ball]⟩] =
      Except.error .calibrationError := by
  have hdeg : degenerateCorners 0 (0, 0) (1, 0) (2, 0) (3, 0) = true := by
    simp [degenerateCorners, cross2]
  exact ⟨hdeg,
    (mkCourtModel_calibration_error 0 10 20 (0, 0) (1, 0) (2, 0) (3, 0)).2
      30 [⟨[], [.ball]⟩] hdeg⟩

/-- C7: when two players are both within the touch proximity radius of
the ball, the touch goes to the strictly nearer player (distances apart
by more than epsilon), and at exact equidistance within epsilon to the
lower player id; the attribution is a function of the frame, hence
uniquely determined. -/
theorem touch_attribution_rules (radiusSq eps : ℚ) (heps : 0 ≤ eps) (ball : Pt)
    (p q : PlayerPos)
    (hp : withinRadius radiusSq ball p = true)
    (hq : withinRadius radiusSq ball q = true) :
    (eps < distSq ball q.pos - distSq ball p.pos →
       attributeTouch radiusSq eps ball [p, q] = some p.pid) ∧
    (eps < distSq ball p.pos - distSq ball q.pos →
       attributeTouch radiusSq eps ball [p, q] = some q.pid) ∧
    (|distSq ball p.pos - distSq ball q.pos| ≤ eps →
       attributeTouch radiusSq eps ball [p, q] = some (min p.pid q.pid)) := by
  have hfold :
      attributeTouch radiusSq eps ball [p, q] =
        some (if preferOver eps ball q p then q else p).pid := by
    cases hpref : preferOver eps ball q p <;>
      simp [attributeTouch, hp, hq, hpref]
  refine ⟨fun hnear => ?_, fun hfar => ?_, fun htie => ?_⟩
  · rw [hfold]
    have h1 : ¬ eps < distSq ball p.pos - distSq ball q.pos := by linarith
    have h2 : eps < distSq ball q.pos - distSq ball p.pos := hnear
    simp [preferOver, h1, h2]
  · rw [hfold]
    simp [preferOver, hfar]
  · rw [hfold]
    rw [abs_le] at htie
    have h1 : ¬ eps < distSq ball p.pos - distSq ball q.pos := by linarith
    have h2 : ¬ eps < distSq ball q.pos - distSq ball p.pos := by linarith
    simp only [preferOver, h1, h2, if_false]
    rcases Nat.lt_or_ge q.pid p.pid with hlt | hge
    · simp [hlt, Nat.min_eq_right (Nat.le_of_lt hlt)]
    · have : ¬ q.pid < p.pid := Nat.not_lt.mpr hge
      simp [this, Nat.min_eq_left hge]

/-- Witness for C7: a player one unit from the ball beats a player three
units away when both are inside the radius. -/
theorem touch_attribution_rules_witness :
    (0 : ℚ) ≤ 1 ∧
    withinRadius 25 (0, 0) ⟨1, (1, 0)⟩ = true ∧
    withinRadius 25 (0, 0) ⟨2, (3, 0)⟩ = true ∧
    attributeTouch 25 1 (0, 0) [⟨1, (1, 0)⟩, ⟨2, (3, 0)⟩] = some 1 := by
  have hp : withinRadius 25 (0, 0) (⟨1, (1, 0)⟩ : PlayerPos) = true := by
    norm_num [withinRadius, distSq]
  have hq : withinRadius 25 (0, 0) (⟨2, (3, 0)⟩ : PlayerPos) = true := by
    norm_num [withinRadius, distSq]
  exact ⟨by norm_num, hp, hq,
    (touch_attribution_rules 25 1 (by norm_num) (0, 0) ⟨1, (1, 0)⟩ ⟨2, (3, 0)⟩
      hp hq).1 (by norm_num [distSq])⟩

/-- The `pickBest` fold returns an element of the list (or the seed) of
minimum Mahalanobis distance. -/
theorem pickBest_fold_spec (cfg : BallConfig) (pred : BallState) :
    ∀ (l : List Pt) (acc : Option Pt) (d : Pt),
      l.foldl
        (fun acc d =>
          match acc with
          | none => some d
          | some b =>
              if mahalSq cfg pred d < mahalSq cfg pred b then some d else some b)
        acc = some d →
      (d ∈ l ∨ acc = some d) ∧
      (∀ d' ∈ l, mahalSq cfg pred d ≤ mahalSq cfg pred d') ∧
      (∀ b, acc = some b → mahalSq cfg pred d ≤ mahalSq cfg pred b) := by
  intro l
  induction l with
  | nil =>
      intro acc d h
      simp only [List.foldl_nil] at h
      refine ⟨Or.inr h, by simp, fun b hb => ?_⟩
      rw [h] at hb
      cases hb
      exact le_refl _
  | cons c cs ih =>
      intro acc d h
      simp only [List.foldl_cons] at h
      cases acc with
      | none =>
          obtain ⟨hmem, hmin, hacc⟩ := ih (some c) d h
          have hdc : mahalSq cfg pred d ≤ mahalSq cfg pred c := hacc c rfl
          refine ⟨?_, ?_, ?_⟩
          · rcases hmem with hm | hm
            · exact Or.inl (List.mem_cons_of_mem _ hm)
            · cases hm
              exact Or.inl (List.mem_cons_self _ _)
          · intro d' hd'
            rcases List.mem_cons.mp hd' with rfl | hm
            · exact hdc
            · exact hmin d' hm
          · intro b hb
            cases hb
      | some a =>
          dsimp only at h
          by_cases hlt : mahalSq cfg pred c < mahalSq cfg pred a
          · rw [if_pos hlt] at h
            obtain ⟨hmem, hmin, hacc⟩ := ih (some c) d h
            have hdc : mahalSq cfg pred d ≤ mahalSq cfg pred c := hacc c rfl
            refine ⟨?_, ?_, ?_⟩
            · rcases hmem with hm | hm
              · exact Or.inl (List.mem_cons_of_mem _ hm)
              · cases hm
                exact Or.inl (List.mem_cons_self _ _)
            · intro d' hd'
              rcases List.mem_cons.mp hd' with rfl | hm
              · exact hdc
              · exact hmin d' hm
            · intro b hb
              cases hb
              exact le_trans hdc (le_of_lt hlt)
          · rw [if_neg hlt] at h
            obtain ⟨hmem, hmin, hacc⟩ := ih (some a) d h
            have hda : mahalSq cfg pred d ≤ mahalSq cfg pred a := hacc a rfl
            refine ⟨?_, ?_, ?_⟩
            · rcases hmem with hm | hm
              · exact Or.inl (List.mem_cons_of_mem _ hm)
              · exact Or.inr hm
            · intro d' hd'
              rcases List.mem_cons.mp hd' with rfl | hm
              · exact le_trans hda (le_of_not_lt hlt)
              · exact hmin d' hm
            · intro b hb
              cases hb
              exact hda

/-- C4: the Ball Motion Filter updates from a candidate detection only if
it passes the Mahalanobis-and-speed gate; among several passing
candidates the one of minimum Mahalanobis distance is chosen; and a
single detection failing the gate leaves the filter state exactly as a
detection-free frame would (pure coasting — the detection does not alter
the filter state). -/
theorem ballFilter_gating (cfg : BallConfig) (s : BallState) :
    (∀ (ds : List Pt) (d : Pt),
      pickBest cfg (predictBall s) (ds.filter (passesGate cfg s)) = some d →
        passesGate cfg s d = true ∧
        ballStep cfg s ds = ⟨d.1, d.2, d.1 - s.x, d.2 - s.y⟩ ∧
        ∀ d' ∈ ds, passesGate cfg s d' = true →
          mahalSq cfg (predictBall s) d ≤ mahalSq cfg (predictBall s) d') ∧
    (∀ d : Pt, passesGate cfg s d = false →
      ballStep cfg s [d] = ballStep cfg s []) := by
  constructor
  · intro ds d hpick
    obtain ⟨hmem, hmin, _⟩ := pickBest_fold_spec cfg (predictBall s) _ none d hpick
    have hdmem : d ∈ ds.filter (passesGate cfg s) := by
      rcases hmem with hm | hm
      · exact hm
      · cases hm
    refine ⟨(List.mem_filter.mp hdmem).2, ?_, ?_⟩
    · simp only [ballStep]
      rw [hpick]
    · intro d' hd' hpass
      exact hmin d' (List.mem_filter.mpr ⟨hd', hpass⟩)
  · intro d hfail
    simp [ballStep, pickBest, hfail]

/-- Witness for C4: a detection 500 pixels from the prediction fails the
gate (measurement variance 1, squared gate 100, squared max speed 2500)
and does not alter the filter state. -/
theorem ballFilter_gating_witness :
    passesGate ⟨1, 100, 2500⟩ ⟨0, 0, 0, 0⟩ (500, 0) = false ∧
    ballStep ⟨1, 100, 2500⟩ ⟨0, 0, 0, 0⟩ [(500, 0)] =
      ballStep ⟨1, 100, 2500⟩ ⟨0, 0, 0, 0⟩ [] := by
  have hfail : passesGate ⟨1, 100, 2500⟩ ⟨0, 0, 0, 0⟩ ((500 : ℚ), (0 : ℚ)) = false := by
    norm_num [passesGate, mahalSq, impliedSpeedSq, distSq, predictBall]
  exact ⟨hfail, (ballFilter_gating ⟨1, 100, 2500⟩ ⟨0, 0, 0, 0⟩).2 (500, 0) hfail⟩

/-- A clamp into `[0, hi]` is nonnegative. -/
theorem clampQ_nonneg (hi v : ℚ) : 0 ≤ clampQ 0 hi v :=
  le_max_left 0 _

/-- A clamp into `[0, hi]` is at most `hi` when `hi` is nonnegative. -/
theorem clampQ_le (hi v : ℚ) (h : 0 ≤ hi) : clampQ 0 hi v ≤ hi :=
  max_le h (min_le_left _ _)

/-- C8: for a single frame's raw detector output, the Detection Adapter
returns only detections whose class is one of the six known classes
(via the raw class-id mapping), whose confidence lies in `[0, 1]` and
reaches the configured floor, and whose bounding box is clipped inside
the frame bounds; the result is a pure function of that frame's raw
output alone. -/
theorem adapter_contract (confFloor fw fh : ℚ) (hw : 0 ≤ fw) (hh : 0 ≤ fh)
    (raws : List RawDet) :
    ∀ d ∈ adaptFrame confFloor fw fh raws,
      (0 ≤ d.conf ∧ d.conf ≤ 1 ∧ confFloor ≤ d.conf) ∧
      (0 ≤ d.x ∧ d.x + d.w ≤ fw ∧ 0 ≤ d.y ∧ d.y + d.h ≤ fh) ∧
      (∃ r ∈ raws, classOfId r.classId = some d.cls ∧ r.conf = d.conf) := by
  intro d hd
  rw [adaptFrame, List.mem_filterMap] at hd
  obtain ⟨r, hr, hfr⟩ := hd
  cases hc : classOfId r.classId with
  | none =>
      rw [hc] at hfr
      exact absurd hfr (by simp)
  | some c =>
      rw [hc] at hfr
      dsimp only at hfr
      by_cases hok : confOk confFloor r.conf = true
      · rw [if_pos hok] at hfr
        rw [Option.some.injEq] at hfr
        subst hfr
        have hconf : 0 ≤ r.conf ∧ r.conf ≤ 1 ∧ confFloor ≤ r.conf := by
          simpa [confOk, and_assoc] using hok
        have hx0 : 0 ≤ clampQ 0 fw r.x := clampQ_nonneg _ _
        have hxw : clampQ 0 fw r.x ≤ fw := clampQ_le _ _ hw
        have hy0 : 0 ≤ clampQ 0 fh r.y := clampQ_nonneg _ _
        have hyh : clampQ 0 fh r.y ≤ fh := clampQ_le _ _ hh
        have hw0 : 0 ≤ clampQ 0 (fw - clampQ 0 fw r.x) r.w := clampQ_nonneg _ _
        have hww : clampQ 0 (fw - clampQ 0 fw r.x) r.w ≤ fw - clampQ 0 fw r.x :=
          clampQ_le _ _ (by linarith)
        have hh0 : 0 ≤ clampQ 0 (fh - clampQ 0 fh r.y) r.h := clampQ_nonneg _ _
        have hhh : clampQ 0 (fh - clampQ 0 fh r.y) r.h ≤ fh - clampQ 0 fh r.y :=
          clampQ_le _ _ (by linarith)
        refine ⟨hconf, ?_, ⟨r, hr, hc, rfl⟩⟩
        simp only [clipBox]
        exact ⟨hx0, by linarith, hy0, by linarith⟩
      · rw [if_neg hok] at hfr
        exact absurd hfr (by simp)

/-- Witness for C8: a ball detection of confidence 1 inside a 100×100
frame survives the adapter with its box inside the frame. -/
theorem adapter_contract_witness :
    (0 : ℚ) ≤ 100 ∧
    (⟨.ball, 0, 0, 10, 10, 1⟩ : Detection) ∈
      adaptFrame 0 100 100 [⟨5, 0, 0, 10, 10, 1⟩] ∧
    ((0 ≤ (⟨.ball, 0, 0, 10, 10, 1⟩ : Detection).conf ∧
        (⟨.ball, 0, 0, 10, 10, 1⟩ : Detection).conf ≤ 1 ∧
        (0 : ℚ) ≤ (⟨.ball, 0, 0, 10, 10, 1⟩ : Detection).conf) ∧
      (0 ≤ (⟨.ball, 0, 0, 10, 10, 1⟩ : Detection).x ∧
        (⟨.ball, 0, 0, 10, 10, 1⟩ : Detection).x +
          (⟨.ball, 0, 0, 10, 10, 1⟩ : Detection).w ≤ 100 ∧
        0 ≤ (⟨.ball, 0, 0, 10, 10, 1⟩ : Detection).y ∧
        (⟨.ball, 0, 0, 10, 10, 1⟩ : Detection).y +
          (⟨.ball, 0, 0, 10, 10, 1⟩ : Detection).h ≤ 100) ∧
      (∃ r ∈ ([⟨5, 0, 0, 10, 10, 1⟩] : List RawDet),
        classOfId r.classId = some (⟨.ball, 0, 0, 10, 10, 1⟩ : Detection).cls ∧
        r.conf = (⟨.ball, 0, 0, 10, 10, 1⟩ : Detection).conf)) := by
  have hmem : (⟨.ball, 0, 0, 10, 10, 1⟩ : Detection) ∈
      adaptFrame 0 100 100 [⟨5, 0, 0, 10, 10, 1⟩] := by
    have hlist : adaptFrame 0 100 100 [⟨5, 0, 0, 10, 10, 1⟩] =
        [⟨.ball, 0, 0, 10, 10, 1⟩] := by
      norm_num [adaptFrame, List.filterMap, classOfId, confOk, clipBox, clampQ,
        min_def, max_def]
    rw [hlist]
    exact List.mem_singleton.mpr rfl
  exact ⟨by norm_num, hmem,
    adapter_contract 0 100 100 (by norm_num) (by norm_num)
      [⟨5, 0, 0, 10, 10, 1⟩] _ hmem⟩

/-- The lifecycle step never changes a track's class. -/
theorem stepTrack_cls (maxAge : Nat) (m : Bool) (t : Track) :
    (stepTrack maxAge m t).cls = t.cls := by
  unfold stepTrack
  cases t.status <;> cases m <;> dsimp <;> split <;> rfl

/-- A track active after a `stepTrack` was active before: `Lost` and
`Removed` tracks never re-enter the active statuses. -/
theorem isActive_of_stepTrack (maxAge : Nat) (m : Bool) (t : Track)
    (h : isActive (stepTrack maxAge m t) = true) : isActive t = true := by
  cases ht : t.status with
  | tentative => simp [isActive, ht]
  | confirmed => simp [isActive, ht]
  | lost =>
      exfalso
      unfold stepTrack at h
      rw [ht] at h
      by_cases hm : maxAge < t.timeSinceUpdate + 1 <;>
        simp [isActive, hm] at h
  | removed =>
      exfalso
      unfold stepTrack at h
      rw [ht] at h
      simp [isActive, ht] at h

/-- The active-track count distributes over list append. -/
theorem countActive_append (ts ts' : List Track) (c : ObjClass) :
    countActive (ts ++ ts') c = countActive ts c + countActive ts' c := by
  simp [countActive, List.filter_append]

/-- The per-frame lifecycle step does not increase the number of active
tracks of any class. -/
theorem countActive_map_stepTrack (maxAge : Nat) (f : Track → Bool) (c : ObjClass) :
    ∀ ts : List Track,
      countActive (ts.map fun t => stepTrack maxAge (f t) t) c ≤ countActive ts c := by
  intro ts
  induction ts with
  | nil => simp [countActive]
  | cons t ts ih =>
      simp only [List.map_cons]
      by_cases hact : isActive (stepTrack maxAge (f t) t) = true
      · have hact0 : isActive t = true := isActive_of_stepTrack maxAge (f t) t hact
        by_cases hcls : t.cls = c
        · have h1 : (stepTrack maxAge (f t) t).cls = c := by
            rw [stepTrack_cls]; exact hcls
          simp only [countActive, List.filter_cons]
          rw [if_pos (by simp [h1, hact]), if_pos (by simp [hcls, hact0])]
          simp only [List.length_cons]
          exact Nat.succ_le_succ ih
        · have h1 : ¬(stepTrack maxAge (f t) t).cls = c := by
            rw [stepTrack_cls]; exact hcls
          simp only [countActive, List.filter_cons]
          rw [if_neg (by simp [h1]), if_neg (by simp [hcls])]
          exact ih
      · have h2 : ((stepTrack maxAge (f t) t).cls = c &&
            isActive (stepTrack maxAge (f t) t)) = false := by
          rw [Bool.and_eq_false_iff]
          right
          exact Bool.eq_false_iff.mpr hact
        simp only [countActive, List.filter_cons]
        rw [if_neg (by simp [Bool.eq_false_iff.mp h2]  )]
        by_cases hcls : t.cls = c
        · by_cases hact0 : isActive t = true
          · rw [if_pos (by simp [hcls, hact0])]
            simp only [List.length_cons]
            exact le_trans ih (Nat.le_succ _)
          · rw [if_neg (by simp [hact0])]
            exact ih
        · rw [if_neg (by simp [hcls])]
          exact ih

/-- A class that accepts a spawn has no active track. -/
theorem countActive_eq_zero_of_spawnAllowed (ts : List Track) (c : ObjClass)
    (h : spawnAllowed ts c = true) : countActive ts c = 0 := by
  unfold countActive
  rw [List.length_eq_zero, List.filter_eq_nil_iff]
  intro t ht
  have h2 := List.all_eq_true.mp h t ht
  obtain ⟨tid, tcls, tst, tcm, ttsu⟩ := t
  intro hcontra
  rw [Bool.and_eq_true, decide_eq_true_eq] at hcontra
  obtain ⟨hcls, hact⟩ := hcontra
  rw [isActive, Bool.or_eq_true, decide_eq_true_eq, decide_eq_true_eq] at hact
  simp only [Bool.or_eq_true, decide_eq_true_eq] at h2
  dsimp only at hcls hact h2
  rcases hact with hs | hs <;> subst hs <;> simp_all

/-- Spawning preserves the at-most-one-active-track-per-class bound. -/
theorem spawnTracks_countActive (ds : List ObjClass) :
    ∀ (ts : List Track) (n : Nat),
      (∀ c, countActive ts c ≤ 1) →
      ∀ c, countActive (spawnTracks ts n ds).1 c ≤ 1 := by
  induction ds with
  | nil =>
      intro ts n h c
      exact h c
  | cons d dsx ih =>
      intro ts n h c
      unfold spawnTracks
      by_cases hsp : spawnAllowed ts d = true
      · rw [if_pos hsp]
        refine ih _ _ ?_ c
        intro c'
        rw [countActive_append]
        by_cases hc : d = c'
        · subst hc
          rw [countActive_eq_zero_of_spawnAllowed ts d hsp]
          simp [countActive, isActive]
        · have hz : countActive [⟨n, d, .tentative, 1, 0⟩] c' = 0 := by
            simp [countActive, isActive, hc]
          rw [hz]
          simpa using h c'
      · rw [if_neg hsp]
        exact ih _ _ h c

/-- One Track Store frame preserves the bound. -/
theorem stepStore_countActive (maxAge : Nat) (s : TrackStore) (inp : FrameInput)
    (h : ∀ c, countActive s.tracks c ≤ 1) :
    ∀ c, countActive (stepStore maxAge s inp).tracks c ≤ 1 := by
  simp only [stepStore]
  refine spawnTracks_countActive inp.newDetections _ s.nextId (fun c => ?_)
  exact le_trans (countActive_map_stepTrack maxAge _ c s.tracks) (h c)

/-- The bound holds along any run of the Track Store. -/
theorem runStore_countActive_aux (maxAge : Nat) (inputs : List FrameInput) :
    ∀ s : TrackStore, (∀ c, countActive s.tracks c ≤ 1) →
      ∀ c, countActive (inputs.foldl (stepStore maxAge) s).tracks c ≤ 1 := by
  induction inputs with
  | nil =>
      intro s h
      exact h
  | cons i is ih =>
      intro s h
      exact ih _ (stepStore_countActive maxAge s i h)

/-- C2: at every frame of any detection stream the Track Store holds at
most one active (`Tentative` or `Confirmed`, hence non-`Lost`) track per
class — in particular at most one Confirmed non-Lost track per player
class and at most one concurrent ball track, re-acquisition included —
and a spawned detection for a class with a Confirmed track is accepted
only if that track is simultaneously `Lost`, never while it is
Confirmed. -/
theorem trackStore_identity_invariant :
    (∀ (maxAge : Nat) (inputs : List FrameInput) (c : ObjClass),
      countActive (runStore maxAge inputs).tracks c ≤ 1) ∧
    (∀ (ts : List Track) (c : ObjClass) (t : Track),
      t ∈ ts → t.cls = c → t.status = .confirmed →
        spawnAllowed ts c = false) := by
  constructor
  · intro maxAge inputs c
    exact runStore_countActive_aux maxAge inputs ⟨[], 0⟩
      (fun c' => by simp [countActive]) c
  · intro ts c t ht hcls hst
    cases hsp : spawnAllowed ts c with
    | false => rfl
    | true =>
        exfalso
        have h2 := List.all_eq_true.mp hsp t ht
        rw [hcls, hst] at h2
        simp at h2

/-- Witness for C2: a frame with two simultaneous unmatched ball
detections still yields at most one active ball track, and a class with
a Confirmed track accepts no spawn. -/
theorem trackStore_identity_invariant_witness :
    (⟨0, .ball, .confirmed, 3, 0⟩ : Track) ∈
      ([⟨0, .ball, .confirmed, 3, 0⟩] : List Track) ∧
    countActive (runStore 30 [⟨[], [.ball, .ball]⟩]).tracks .ball ≤ 1 ∧
    spawnAllowed [⟨0, .ball, .confirmed, 3, 0⟩] .ball = false :=
  ⟨List.mem_singleton.mpr rfl,
   trackStore_identity_invariant.1 30 [⟨[], [.ball, .ball]⟩] .ball,
   trackStore_identity_invariant.2 [⟨0, .ball, .confirmed, 3, 0⟩] .ball
     ⟨0, .ball, .confirmed, 3, 0⟩ (List.mem_singleton.mpr rfl) rfl rfl⟩

/-- One lifecycle step preserves the per-track bookkeeping invariant. -/
theorem stepTrack_trackOK (maxAge : Nat) (m : Bool) (t : Track)
    (h : trackOK t) : trackOK (stepTrack maxAge m t) := by
  obtain ⟨h1, h2⟩ := h
  obtain ⟨tid, tcls, tst, tcm, ttsu⟩ := t
  dsimp only at h1 h2
  cases tst with
  | removed =>
      exact ⟨h1, h2⟩
  | lost =>
      have hstep : stepTrack maxAge m (⟨tid, tcls, .lost, tcm, ttsu⟩ : Track) =
          ⟨tid, tcls, if maxAge < ttsu + 1 then .removed else .lost, 0, ttsu + 1⟩ :=
        rfl
      rw [hstep]
      constructor <;> intro hx <;> dsimp only at hx <;>
        by_cases hm : maxAge < ttsu + 1
      · rw [if_pos hm] at hx
        cases hx
      · rw [if_neg hm] at hx
        cases hx
      · rw [if_pos hm] at hx
        cases hx
      · rw [if_neg hm] at hx
        cases hx
  | tentative =>
      cases m with
      | false =>
          have hstep : stepTrack maxAge false (⟨tid, tcls, .tentative, tcm, ttsu⟩ : Track) =
              ⟨tid, tcls, .tentative, 0, ttsu + 1⟩ := rfl
          rw [hstep]
          refine ⟨fun _ => ?_, fun hx => ?_⟩
          · dsimp only
            omega
          · dsimp only at hx
            cases hx
      | true =>
          have hstep : stepTrack maxAge true (⟨tid, tcls, .tentative, tcm, ttsu⟩ : Track) =
              ⟨tid, tcls, if 3 ≤ tcm + 1 then .confirmed else .tentative, tcm + 1, 0⟩ :=
            rfl
          rw [hstep]
          by_cases h3 : 3 ≤ tcm + 1
          · rw [if_pos h3]
            refine ⟨fun hx => ?_, fun _ => ?_⟩
            · dsimp only at hx
              cases hx
            · dsimp only
              omega
          · rw [if_neg h3]
            refine ⟨fun _ => ?_, fun hx => ?_⟩
            · dsimp only
              omega
            · dsimp only at hx
              cases hx
  | confirmed =>
      cases m with
      | false =>
          have hstep : stepTrack maxAge false (⟨tid, tcls, .confirmed, tcm, ttsu⟩ : Track) =
              ⟨tid, tcls, .lost, 0, ttsu + 1⟩ := rfl
          rw [hstep]
          refine ⟨fun hx => ?_, fun hx => ?_⟩ <;> dsimp only at hx <;> cases hx
      | true =>
          have hstep : stepTrack maxAge true (⟨tid, tcls, .confirmed, tcm, ttsu⟩ : Track) =
              ⟨tid, tcls, .confirmed, tcm + 1, 0⟩ := rfl
          rw [hstep]
          refine ⟨fun hx => ?_, fun _ => ?_⟩
          · dsimp only at hx
            cases hx
          · dsimp only
            have := h2 rfl
            omega

/-- Spawning preserves the per-track bookkeeping invariant. -/
theorem spawnTracks_trackOK (ds : List ObjClass) :
    ∀ (ts : List Track) (n : Nat),
      (∀ t ∈ ts, trackOK t) →
      ∀ t ∈ (spawnTracks ts n ds).1, trackOK t := by
  induction ds with
  | nil =>
      intro ts n h
      exact h
  | cons d dsx ih =>
      intro ts n h t
      unfold spawnTracks
      by_cases hsp : spawnAllowed ts d = true
      · rw [if_pos hsp]
        refine ih _ _ ?_ t
        intro u hu
        rcases List.mem_append.mp hu with hm | hm
        · exact h u hm
        · rw [List.mem_singleton.mp hm]
          refine ⟨fun _ => ?_, fun hx => ?_⟩
          · dsimp only
            omega
          · dsimp only at hx
            cases hx
      · rw [if_neg hsp]
        exact ih _ _ h t

/-- The bookkeeping invariant holds along any Track Store run. -/
theorem runStore_trackOK_aux (maxAge : Nat) (inputs : List FrameInput) :
    ∀ s : TrackStore, (∀ t ∈ s.tracks, trackOK t) →
      ∀ t ∈ (inputs.foldl (stepStore maxAge) s).tracks, trackOK t := by
  induction inputs with
  | nil =>
      intro s h
      exact h
  | cons i is ih =>
      intro s h
      refine ih _ ?_
      simp only [stepStore]
      refine spawnTracks_trackOK i.newDetections _ s.nextId ?_
      intro u hu
      rw [List.mem_map] at hu
      obtain ⟨v, hv, rfl⟩ := hu
      exact stepTrack_trackOK maxAge _ v (h v hv)

/-- C3: every track in any reachable Track Store state satisfies the
lifecycle bookkeeping (`Tentative` with 0–2 consecutive matches,
`Confirmed` with at least 3), and the one-step transition function makes
exactly the specified transitions: `Tentative` confirms at the third
consecutive match, `Confirmed` drops to `Lost` on the first unmatched
frame (`time_since_update` exceeding 0), `Lost` is removed exactly when
`time_since_update` exceeds `max_age`, and `Removed` is absorbing — no
other status transitions occur. -/
theorem track_lifecycle :
    (∀ (maxAge : Nat) (inputs : List FrameInput),
      ∀ t ∈ (runStore maxAge inputs).tracks,
        (t.status = .tentative → t.consecutiveMatches ≤ 2) ∧
        (t.status = .confirmed → 3 ≤ t.consecutiveMatches)) ∧
    (∀ (maxAge : Nat) (matched : Bool) (t : Track),
      (t.status = .tentative →
        (stepTrack maxAge matched t).status =
          (if matched = true then
            (if 3 ≤ t.consecutiveMatches + 1 then .confirmed else .tentative)
           else .tentative)) ∧
      (t.status = .confirmed →
        (stepTrack maxAge matched t).status =
          (if matched = true then .confirmed else .lost)) ∧
      (t.status = .lost →
        (stepTrack maxAge matched t).status =
          (if maxAge < t.timeSinceUpdate + 1 then .removed else .lost)) ∧
      (t.status = .removed → (stepTrack maxAge matched t).status = .removed)) := by
  constructor
  · intro maxAge inputs t ht
    exact runStore_trackOK_aux maxAge inputs ⟨[], 0⟩ (by intro u hu; cases hu) t ht
  · intro maxAge matched t
    obtain ⟨tid, tcls, tst, tcm, ttsu⟩ := t
    refine ⟨fun hst => ?_, fun hst => ?_, fun hst => ?_, fun hst => ?_⟩ <;>
      dsimp only at hst <;> subst hst <;> unfold stepTrack <;> dsimp only
    · cases matched with
      | false => rfl
      | true =>
          by_cases h3 : 3 ≤ tcm + 1
          · rw [if_pos h3]
            rfl
          · rw [if_neg h3]
            rfl
    · cases matched with
      | false => rfl
      | true => rfl

/-- Witness for C3: the track spawned by one unmatched ball detection is
`Tentative` with one consecutive match, and a Confirmed track drops to
`Lost` on an unmatched frame. -/
theorem track_lifecycle_witness :
    (⟨0, .ball, .tentative, 1, 0⟩ : Track) ∈
      (runStore 30 [⟨[], [.ball]⟩]).tracks ∧
    (((⟨0, .ball, .tentative, 1, 0⟩ : Track).status = .tentative →
        (⟨0, .ball, .tentative, 1, 0⟩ : Track).consecutiveMatches ≤ 2) ∧
      ((⟨0, .ball, .tentative, 1, 0⟩ : Track).status = .confirmed →
        3 ≤ (⟨0, .ball, .tentative, 1, 0⟩ : Track).consecutiveMatches)) ∧
    ((⟨7, .ball, .confirmed, 3, 0⟩ : Track).status = .confirmed →
      (stepTrack 30 false ⟨7, .ball, .confirmed, 3, 0⟩).status =
        (if (false : Bool) = true then .confirmed else .lost)) := by
  have hmem : (⟨0, .ball, .tentative, 1, 0⟩ : Track) ∈
      (runStore 30 [⟨[], [.ball]⟩]).tracks := by
    simp [runStore, stepStore, spawnTracks, spawnAllowed]
  exact ⟨hmem,
    track_lifecycle.1 30 [⟨[], [.ball]⟩] ⟨0, .ball, .tentative, 1, 0⟩ hmem,
    (track_lifecycle.2 30 false ⟨7, .ball, .confirmed, 3, 0⟩).2.1⟩

/-- The adjugate undoes the matrix up to the determinant factor. -/
theorem adj3_mul_apply (m : Mat3) (v : Vec3) :
    applyM (adj3 m) (applyM m v) =
      ⟨det3 m * v.x, det3 m * v.y, det3 m * v.z⟩ := by
  obtain ⟨a, b, c, d, e, f, g, h, i⟩ := m
  obtain ⟨x, y, z⟩ := v
  simp only [applyM, adj3, det3, Vec3.mk.injEq]
  refine ⟨by ring, by ring, by ring⟩

/-- The matrix undoes its adjugate up to the determinant factor. -/
theorem apply_mul_adj3 (m : Mat3) (v : Vec3) :
    applyM m (applyM (adj3 m) v) =
      ⟨det3 m * v.x, det3 m * v.y, det3 m * v.z⟩ := by
  obtain ⟨a, b, c, d, e, f, g, h, i⟩ := m
  obtain ⟨x, y, z⟩ := v
  simp only [applyM, adj3, det3, Vec3.mk.injEq]
  refine ⟨by ring, by ring, by ring⟩

/-- Two projective maps composing to a nonzero scalar multiple of the
identity are mutually inverse through the perspective divide. -/
theorem projV_inverse (A B : Mat3) (k : ℚ) (hk : k ≠ 0)
    (hAB : ∀ v : Vec3, applyM B (applyM A v) = ⟨k * v.x, k * v.y, k * v.z⟩) :
    ∀ p q : Pt, projV (applyM A ⟨p.1, p.2, 1⟩) = some q →
      projV (applyM B ⟨q.1, q.2, 1⟩) = some p := by
  rintro ⟨p1, p2⟩ ⟨q1, q2⟩ hpq
  unfold projV at hpq
  by_cases hz : (applyM A ⟨p1, p2, 1⟩).z = 0
  · rw [if_pos hz] at hpq
    cases hpq
  · rw [if_neg hz] at hpq
    rw [Option.some.injEq, Prod.mk.injEq] at hpq
    obtain ⟨hq1, hq2⟩ := hpq
    dsimp only at hq1 hq2
    subst hq1
    subst hq2
    have hvec : (⟨(applyM A ⟨p1, p2, 1⟩).x / (applyM A ⟨p1, p2, 1⟩).z,
        (applyM A ⟨p1, p2, 1⟩).y / (applyM A ⟨p1, p2, 1⟩).z, 1⟩ : Vec3) =
        ⟨(applyM A ⟨p1, p2, 1⟩).x * ((applyM A ⟨p1, p2, 1⟩).z)⁻¹,
         (applyM A ⟨p1, p2, 1⟩).y * ((applyM A ⟨p1, p2, 1⟩).z)⁻¹,
         (applyM A ⟨p1, p2, 1⟩).z * ((applyM A ⟨p1, p2, 1⟩).z)⁻¹⟩ := by
      rw [Vec3.mk.injEq]
      exact ⟨div_eq_mul_inv _ _, div_eq_mul_inv _ _, (mul_inv_cancel₀ hz).symm⟩
    rw [hvec]
    have hsmul : applyM B
        ⟨(applyM A ⟨p1, p2, 1⟩).x * ((applyM A ⟨p1, p2, 1⟩).z)⁻¹,
         (applyM A ⟨p1, p2, 1⟩).y * ((applyM A ⟨p1, p2, 1⟩).z)⁻¹,
         (applyM A ⟨p1, p2, 1⟩).z * ((applyM A ⟨p1, p2, 1⟩).z)⁻¹⟩ =
        ⟨(applyM B (applyM A ⟨p1, p2, 1⟩)).x * ((applyM A ⟨p1, p2, 1⟩).z)⁻¹,
         (applyM B (applyM A ⟨p1, p2, 1⟩)).y * ((applyM A ⟨p1, p2, 1⟩).z)⁻¹,
         (applyM B (applyM A ⟨p1, p2, 1⟩)).z * ((applyM A ⟨p1, p2, 1⟩).z)⁻¹⟩ := by
      obtain ⟨ba, bb, bc, bd, be, bf, bg, bh, bi⟩ := B
      simp only [applyM, Vec3.mk.injEq]
      refine ⟨by ring, by ring, by ring⟩
    rw [hsmul, hAB ⟨p1, p2, 1⟩]
    dsimp only
    unfold projV
    have hzz : k * 1 * ((applyM A ⟨p1, p2, 1⟩).z)⁻¹ ≠ 0 :=
      mul_ne_zero (by rw [mul_one]; exact hk) (inv_ne_zero hz)
    rw [if_neg hzz, Option.some.injEq, Prod.mk.injEq]
    constructor
    · rw [div_eq_iff hzz]
      ring
    · rw [div_eq_iff hzz]
      ring

/-- C1: for a valid court calibration (the spec's invariant — the
homography of an accepted corner configuration is invertible), projection
and unprojection are mutually inverse: unprojecting a projected court
position recovers it exactly (hence within 1e-6 court units), and
projecting an unprojected pixel recovers the pixel exactly (hence within
floating-point tolerance); the exact rational arithmetic of the model
makes both round trips equalities. -/
theorem court_roundtrip (cm : CourtModel) (hdet : det3 cm.homography ≠ 0) :
    (∀ p q : Pt, project cm p = some q → unproject cm q = some p) ∧
    (∀ q p : Pt, unproject cm q = some p → project cm p = some q) := by
  constructor
  · intro p q h
    unfold project at h
    unfold unproject
    exact projV_inverse cm.homography (adj3 cm.homography) (det3 cm.homography)
      hdet (fun v => adj3_mul_apply cm.homography v) p q h
  · intro q p h
    unfold unproject at h
    unfold project
    exact projV_inverse (adj3 cm.homography) cm.homography (det3 cm.homography)
      hdet (fun v => apply_mul_adj3 cm.homography v) q p h

/-- Witness for C1 at the identity homography and the court point
`(2, 3)`. -/
theorem court_roundtrip_witness :
    det3 (⟨1, 0, 0, 0, 1, 0, 0, 0, 1⟩ : Mat3) ≠ 0 ∧
    project ⟨⟨1, 0, 0, 0, 1, 0, 0, 0, 1⟩⟩ (2, 3) = some (2, 3) ∧
    unproject ⟨⟨1, 0, 0, 0, 1, 0, 0, 0, 1⟩⟩ (2, 3) = some (2, 3) := by
  have hdet : det3 (⟨1, 0, 0, 0, 1, 0, 0, 0, 1⟩ : Mat3) ≠ 0 := by
    norm_num [det3]
  have hproj : project ⟨⟨1, 0, 0, 0, 1, 0, 0, 0, 1⟩⟩ ((2 : ℚ), (3 : ℚ)) =
      some (2, 3) := by
    norm_num [project, projV, applyM]
  exact ⟨hdet, hproj,
    (court_roundtrip ⟨⟨1, 0, 0, 0, 1, 0, 0, 0, 1⟩⟩ hdet).1 (2, 3) (2, 3) hproj⟩

end PadelSpec
